import Mathlib

/-!
Verification of the pass-guardians backend core (credential security subsystem).

This file gives a shallow embedding, in Lean 4, of the security-relevant parts
of the repository: the sharing permission model (`sharing/models.py`,
`sharing/views.py`), the password-strength analyzer and secure password
generator (`credential/views.py`), the password-history retention logic
(`credential/views.py`), and the credential encryption/serializer logic
(`credential/models.py`, `credential/serializers.py`).  Machine integers are
modelled as `Nat`/`Int`, timestamps as `Int`, database rows as Lean structures,
and the database tables touched by an operation as explicit lists threaded
through the functions.  The external Fernet cipher is modelled as an abstract
encode/decode pair passed in as parameters.
-/

namespace PassGuardians

/- ## Sharing model: `sharing/models.py` -/

/-- The dictionary `permissions_hierarchy` used by both `SharedCredential.has_permission`
and `SharedFolder.has_permission`; `dict.get(key, ...)` defaults to 0 for
unknown strings, mirrored by the final `else 0`. -/
def permissions_hierarchy (p : String) : Nat :=
  if p = "read" then 0
  else if p = "write" then 1
  else if p = "share" then 2
  else if p = "admin" then 3
  else 0

/-- A row of the `SharedCredential` table (fields relevant to permission
checks: grantee, permission string, active flag, optional expiry instant). -/
structure SharedCredential where
  user : Nat
  permission : String
  is_active : Bool
  expires_at : Option Int
deriving DecidableEq

/-- `SharedCredential.is_expired`: true when `expires_at` is set and
`timezone.now() > expires_at`. -/
def SharedCredential.is_expired (g : SharedCredential) (now : Int) : Bool :=
  match g.expires_at with
  | some t => now > t
  | none => false

/-- `SharedCredential.has_permission`: the source computes
`user_level >= required_level and self.is_active and not self.is_expired`. -/
def SharedCredential.has_permission (g : SharedCredential) (permission : String)
    (now : Int) : Bool :=
  let user_level := permissions_hierarchy g.permission
  let required_level := permissions_hierarchy permission
  decide (user_level ≥ required_level) && g.is_active && !(g.is_expired now)

/-- A row of the `SharedFolder` table; the source duplicates the
`SharedCredential` logic verbatim. -/
structure SharedFolder where
  user : Nat
  permission : String
  is_active : Bool
  expires_at : Option Int
deriving DecidableEq

/-- `SharedFolder.is_expired`, duplicated from `SharedCredential`. -/
def SharedFolder.is_expired (g : SharedFolder) (now : Int) : Bool :=
  match g.expires_at with
  | some t => now > t
  | none => false

/-- `SharedFolder.has_permission`, duplicated from `SharedCredential`. -/
def SharedFolder.has_permission (g : SharedFolder) (permission : String)
    (now : Int) : Bool :=
  let user_level := permissions_hierarchy g.permission
  let required_level := permissions_hierarchy permission
  decide (user_level ≥ required_level) && g.is_active && !(g.is_expired now)

/-- The four permission levels of `core.models.PermissionChoices`, as an
ordered enumeration (spec side of the rank order read < write < share < admin). -/
inductive PermLevel where
  | read
  | write
  | share
  | admin
deriving DecidableEq

/-- Rank of a permission level in the order read < write < share < admin. -/
def PermLevel.rank : PermLevel → Nat
  | .read => 0
  | .write => 1
  | .share => 2
  | .admin => 3

/-- The database string stored for each permission level
(`PermissionChoices` values). -/
def PermLevel.toName : PermLevel → String
  | .read => "read"
  | .write => "write"
  | .share => "share"
  | .admin => "admin"

/-- C2: for every grant (shared credential or shared folder) and every required
level p among read/write/share/admin, `has_permission p` is true iff the grant
is active, the grant is not expired at call time (`expires_at` null or not
before `now`), and the rank of the grant's permission is at least the rank of
p, under the order read < write < share < admin. -/
theorem has_permission_iff_rank (gp rp : PermLevel) (u : Nat) (active : Bool)
    (exp : Option Int) (now : Int) :
    (SharedCredential.has_permission ⟨u, gp.toName, active, exp⟩ rp.toName now = true
      ↔ active = true ∧ (∀ t, exp = some t → now ≤ t) ∧ rp.rank ≤ gp.rank)
    ∧ (SharedFolder.has_permission ⟨u, gp.toName, active, exp⟩ rp.toName now = true
      ↔ active = true ∧ (∀ t, exp = some t → now ≤ t) ∧ rp.rank ≤ gp.rank) := by
  constructor <;>
  · cases gp <;> cases rp <;> cases active <;> cases exp <;>
      simp [SharedCredential.has_permission, SharedFolder.has_permission,
        SharedCredential.is_expired, SharedFolder.is_expired,
        permissions_hierarchy, PermLevel.toName, PermLevel.rank]

/- ## Expired-share sweep: `sharing/views.py`, `CleanupExpiredSharesView.post` -/

/-- The row predicate of the queryset
`SharedCredential.objects.filter(expires_at__lt=now, is_active=True)`:
`expires_at` set and strictly before `now`, and the row still active. -/
def credExpiredActive (now : Int) (g : SharedCredential) : Bool :=
  (match g.expires_at with
    | some t => decide (t < now)
    | none => false) && g.is_active

/-- Same queryset predicate for the `SharedFolder` table. -/
def folderExpiredActive (now : Int) (g : SharedFolder) : Bool :=
  (match g.expires_at with
    | some t => decide (t < now)
    | none => false) && g.is_active

/-- The bulk `.update(is_active=False)` on the filtered `SharedCredential`
queryset: every matching row is deactivated in place, and the number of
updated rows is returned.  No row is deleted. -/
def cleanup_credentials (now : Int) (table : List SharedCredential) :
    List SharedCredential × Nat :=
  (table.map fun g =>
      if credExpiredActive now g then { g with is_active := false } else g,
   (table.filter (credExpiredActive now)).length)

/-- The bulk `.update(is_active=False)` on the filtered `SharedFolder`
queryset. -/
def cleanup_folders (now : Int) (table : List SharedFolder) :
    List SharedFolder × Nat :=
  (table.map fun g =>
      if folderExpiredActive now g then { g with is_active := false } else g,
   (table.filter (folderExpiredActive now)).length)

/-- `CleanupExpiredSharesView.post`: runs both bulk updates and returns the
two counts (`expired_credentials`, `expired_folders`). -/
def cleanup_expired_shares (now : Int) (creds : List SharedCredential)
    (folders : List SharedFolder) :
    (List SharedCredential × List SharedFolder) × (Nat × Nat) :=
  (((cleanup_credentials now creds).1, (cleanup_folders now folders).1),
   ((cleanup_credentials now creds).2, (cleanup_folders now folders).2))

/-- The queryset predicate coincides with `is_expired && is_active`
(`expires_at__lt=now` is exactly the derived `is_expired` check). -/
theorem credExpiredActive_eq (now : Int) (g : SharedCredential) :
    credExpiredActive now g = (g.is_expired now && g.is_active) := by
  cases h : g.expires_at <;>
    simp [credExpiredActive, SharedCredential.is_expired, h]

/-- Folder version of `credExpiredActive_eq`. -/
theorem folderExpiredActive_eq (now : Int) (g : SharedFolder) :
    folderExpiredActive now g = (g.is_expired now && g.is_active) := by
  cases h : g.expires_at <;>
    simp [folderExpiredActive, SharedFolder.is_expired, h]

/-- The credential sweep maps each row to its deactivated form exactly when it
is expired and still active. -/
theorem cleanup_credentials_map (now : Int) (table : List SharedCredential) :
    (cleanup_credentials now table).1 =
      table.map (fun g =>
        if g.is_expired now = true ∧ g.is_active = true
        then { g with is_active := false } else g) := by
  simp only [cleanup_credentials]
  refine List.map_congr_left fun g _ => ?_
  rw [credExpiredActive_eq]
  by_cases h1 : g.is_expired now = true <;> by_cases h2 : g.is_active = true <;>
    simp [h1, h2]

/-- Folder version of `cleanup_credentials_map`. -/
theorem cleanup_folders_map (now : Int) (table : List SharedFolder) :
    (cleanup_folders now table).1 =
      table.map (fun g =>
        if g.is_expired now = true ∧ g.is_active = true
        then { g with is_active := false } else g) := by
  simp only [cleanup_folders]
  refine List.map_congr_left fun g _ => ?_
  rw [folderExpiredActive_eq]
  by_cases h1 : g.is_expired now = true <;> by_cases h2 : g.is_active = true <;>
    simp [h1, h2]

/-- The credential sweep's count is the number of expired, still-active rows. -/
theorem cleanup_credentials_count (now : Int) (table : List SharedCredential) :
    (cleanup_credentials now table).2 =
      (table.filter fun g => g.is_expired now && g.is_active).length := by
  simp only [cleanup_credentials]
  exact congrArg List.length (List.filter_congr fun g _ => credExpiredActive_eq now g)

/-- Folder version of `cleanup_credentials_count`. -/
theorem cleanup_folders_count (now : Int) (table : List SharedFolder) :
    (cleanup_folders now table).2 =
      (table.filter fun g => g.is_expired now && g.is_active).length := by
  simp only [cleanup_folders]
  exact congrArg List.length (List.filter_congr fun g _ => folderExpiredActive_eq now g)

/-- A row that has just been swept is never expired-and-active afterwards. -/
theorem credExpiredActive_after_sweep (now : Int) (g : SharedCredential) :
    credExpiredActive now
      (if credExpiredActive now g then { g with is_active := false } else g)
      = false := by
  by_cases h : credExpiredActive now g = true
  · simp only [h, if_pos]
    simp [credExpiredActive]
  · simp only [Bool.not_eq_true] at h
    simp [h]

/-- Folder version of `credExpiredActive_after_sweep`. -/
theorem folderExpiredActive_after_sweep (now : Int) (g : SharedFolder) :
    folderExpiredActive now
      (if folderExpiredActive now g then { g with is_active := false } else g)
      = false := by
  by_cases h : folderExpiredActive now g = true
  · simp only [h, if_pos]
    simp [folderExpiredActive]
  · simp only [Bool.not_eq_true] at h
    simp [h]

/-- The credential sweep is idempotent: a second run changes nothing and
reports zero rows. -/
theorem cleanup_credentials_idem (now : Int) (table : List SharedCredential) :
    cleanup_credentials now (cleanup_credentials now table).1 =
      ((cleanup_credentials now table).1, 0) := by
  simp only [cleanup_credentials, Prod.mk.injEq]
  constructor
  · rw [List.map_map]
    refine List.map_congr_left fun g _ => ?_
    simp only [Function.comp_apply]
    rw [credExpiredActive_after_sweep now g]
    simp
  · simp only [List.length_eq_zero, List.filter_eq_nil_iff]
    intro g hg
    simp only [List.mem_map] at hg
    obtain ⟨g0, _, rfl⟩ := hg
    simp [credExpiredActive_after_sweep now g0]

/-- Folder version of `cleanup_credentials_idem`. -/
theorem cleanup_folders_idem (now : Int) (table : List SharedFolder) :
    cleanup_folders now (cleanup_folders now table).1 =
      ((cleanup_folders now table).1, 0) := by
  simp only [cleanup_folders, Prod.mk.injEq]
  constructor
  · rw [List.map_map]
    refine List.map_congr_left fun g _ => ?_
    simp only [Function.comp_apply]
    rw [folderExpiredActive_after_sweep now g]
    simp
  · simp only [List.length_eq_zero, List.filter_eq_nil_iff]
    intro g hg
    simp only [List.mem_map] at hg
    obtain ⟨g0, _, rfl⟩ := hg
    simp [folderExpiredActive_after_sweep now g0]

/-- C8: `cleanupExpired` deactivates (never deletes) exactly the grants whose
`expires_at` is in the past and whose `is_active` flag is still true, returns
the count of such grants per resource type, and is idempotent: a second run on
the resulting state (with no intervening change) deactivates zero grants of
either type and leaves the state unchanged. -/
theorem cleanup_expired_shares_spec (now : Int) (creds : List SharedCredential)
    (folders : List SharedFolder) :
    ((cleanup_expired_shares now creds folders).1.1 =
        creds.map (fun g =>
          if g.is_expired now = true ∧ g.is_active = true
          then { g with is_active := false } else g)
      ∧ (cleanup_expired_shares now creds folders).1.2 =
        folders.map (fun g =>
          if g.is_expired now = true ∧ g.is_active = true
          then { g with is_active := false } else g))
    ∧ ((cleanup_expired_shares now creds folders).1.1.length = creds.length
      ∧ (cleanup_expired_shares now creds folders).1.2.length = folders.length)
    ∧ ((cleanup_expired_shares now creds folders).2.1 =
        (creds.filter fun g => g.is_expired now && g.is_active).length
      ∧ (cleanup_expired_shares now creds folders).2.2 =
        (folders.filter fun g => g.is_expired now && g.is_active).length)
    ∧ cleanup_expired_shares now (cleanup_expired_shares now creds folders).1.1
        (cleanup_expired_shares now creds folders).1.2 =
      ((cleanup_expired_shares now creds folders).1, 0, 0) := by
  refine ⟨⟨?_, ?_⟩, ⟨?_, ?_⟩, ⟨?_, ?_⟩, ?_⟩
  · exact cleanup_credentials_map now creds
  · exact cleanup_folders_map now folders
  · show (cleanup_credentials now creds).1.length = creds.length
    rw [cleanup_credentials_map now creds]
    exact List.length_map creds _
  · show (cleanup_folders now folders).1.length = folders.length
    rw [cleanup_folders_map now folders]
    exact List.length_map folders _
  · exact cleanup_credentials_count now creds
  · exact cleanup_folders_count now folders
  · simp only [cleanup_expired_shares]
    rw [cleanup_credentials_idem now creds, cleanup_folders_idem now folders]

/- ## Password-strength analyzer: `credential/views.py`

The class `CredentialViewSet` defines `_analyze_password_strength` twice; in a
Python class body the later definition wins, so the effective analyzer is the
second one (lines 540-714), which is also the one served by the
`analyze-password` endpoint.  The embedding below follows that second
definition and its helper methods.  Character predicates mirror the ASCII
regexes of the source; `str.lower()` is modelled on ASCII letters. -/

/-- Regex `[a-z]`. -/
def isLowerAlpha (c : Char) : Bool := 'a' ≤ c && c ≤ 'z'

/-- Regex `[A-Z]`. -/
def isUpperAlpha (c : Char) : Bool := 'A' ≤ c && c ≤ 'Z'

/-- Regex `\d` (ASCII digits). -/
def isDigitChar (c : Char) : Bool := '0' ≤ c && c ≤ '9'

/-- The analyzer's symbol character class
(the 33 characters of the regex in `_analyze_password_strength`;
quote, braces, backslash, backtick, apostrophe and the section sign are
written via their code points). -/
def symbolChars : List Char :=
  ['!', '@', '#', '$', '%', '^', '&', '*', '(', ')', ',', '.', '?',
   Char.ofNat 34, ':', Char.ofNat 123, Char.ofNat 125, '|', '<', '>',
   '[', ']', Char.ofNat 92, '/', '_', '+', '=', '~', Char.ofNat 96,
   '-', ';', Char.ofNat 39, Char.ofNat 167]

/-- Membership in the analyzer's symbol class. -/
def isSymbolChar (c : Char) : Bool := symbolChars.contains c

/-- `str.lower()` on ASCII letters. -/
def toLowerAscii (c : Char) : Char :=
  if 'A' ≤ c && c ≤ 'Z' then Char.ofNat (c.toNat + 32) else c

/-- Python's `needle in hay` on strings: `needle` occurs as a contiguous
substring of `hay`. -/
def containsSub (needle : List Char) : List Char → Bool
  | [] => needle.isEmpty
  | a :: rest => needle.isPrefixOf (a :: rest) || containsSub needle rest

/-- The literal-substring part of `_check_common_patterns`: each regex of the
form `xyz+` (last character repeated one or more times) matches iff the
literal `xyz` occurs in the lowercased password; listed in source order. -/
def common_literal_patterns : List (List Char) :=
  ["123", "234", "345", "456", "567", "678", "789",
   "987", "876", "765", "654", "543", "432", "321",
   "abc", "bcd", "cde", "def", "efg", "fgh",
   "zyx", "yxw", "xwv", "wvu", "vut", "uts",
   "qwer", "asdf", "zxcv", "qwerty", "azerty",
   "uiop", "hjkl", "nm,",
   "password", "motdepasse", "admin", "user", "login",
   "welcome", "bonjour", "salut", "test", "demo"].map String.data

/-- The regex `./;+`: any character, then `/`, then one or more `;`
(so some occurrence of `/;` preceded by at least one character). -/
def hasDotSlashSemi : List Char → Bool
  | a :: b :: c :: rest => (a ≠ '\n' && b = '/' && c = ';') || hasDotSlashSemi (b :: c :: rest)
  | _ => false

/-- An occurrence of `pat` immediately followed by an ASCII digit (the regexes
`202[0-9]`, `199[0-9]`, `198[0-9]`). -/
def containsSeqThenDigit (pat : List Char) : List Char → Bool
  | [] => false
  | a :: rest =>
    (pat.isPrefixOf (a :: rest) &&
      (match (a :: rest).drop pat.length with
        | d :: _ => isDigitChar d
        | [] => false)) || containsSeqThenDigit pat rest

/-- The regex `(.)\1{2,}`: three or more identical consecutive characters
(`.` does not match a newline). -/
def hasTripleRepeat : List Char → Bool
  | a :: b :: c :: rest => (a ≠ '\n' && a = b && b = c) || hasTripleRepeat (b :: c :: rest)
  | _ => false

/-- `_check_common_patterns` of the effective analyzer: any of the listed
regexes matches the lowercased password. -/
def check_common_patterns (pw : List Char) : Bool :=
  let lower := pw.map toLowerAscii
  common_literal_patterns.any (fun p => containsSub p lower)
  || hasDotSlashSemi lower
  || containsSeqThenDigit "202".data lower
  || containsSeqThenDigit "199".data lower
  || containsSeqThenDigit "198".data lower
  || hasTripleRepeat lower

/-- Decides whether the Shannon entropy per character of `pw` is at least
`num / den` bits, in exact integer arithmetic.  The source computes
`H = -sum p_c * log2 p_c` with `p_c = count_c / n` over the distinct
characters `c` of the password; since
`den * n * H = log2 (n ^ (den * n) / prod_c count_c ^ (den * count_c))`,
the comparison `H >= num / den` is equivalent to
`n ^ (den * n) >= 2 ^ (num * n) * prod_c count_c ^ (den * count_c)`.
For the empty password the source returns entropy 0, which fails every
positive threshold, mirrored by the `isEmpty` guard. -/
def entropyAtLeast (pw : List Char) (num den : Nat) : Bool :=
  if pw.isEmpty then false
  else
    let n := pw.length
    2 ^ (num * n) * ((pw.dedup).map fun c => (pw.count c) ^ (den * pw.count c)).prod
      ≤ n ^ (den * n)

/-- Decides whether `_calculate_uniqueness` (distinct characters / length) is
at least `num / den`; the source returns 0 for the empty password. -/
def uniquenessAtLeast (pw : List Char) (num den : Nat) : Bool :=
  if pw.isEmpty then false
  else num * pw.length ≤ den * pw.dedup.length

/-- Sums over a list distribute over pointwise subtraction. -/
theorem list_sum_map_sub (l : List Char) (f g : Char → ℝ) :
    (l.map fun c => f c - g c).sum = (l.map f).sum - (l.map g).sum := by
  induction l with
  | nil => simp
  | cons a t ih =>
    simp only [List.map_cons, List.sum_cons, ih]
    ring

/-- The base-2 logarithm of a product of positive list entries is the sum of
their logarithms. -/
theorem list_logb_prod (l : List Char) (f : Char → ℝ) (hf : ∀ c ∈ l, 0 < f c) :
    Real.logb 2 ((l.map f).prod) = (l.map fun c => Real.logb 2 (f c)).sum := by
  induction l with
  | nil => simp
  | cons a t ih =>
    have hpos : 0 < (t.map f).prod := by
      refine List.prod_pos ?_
      intro x hx
      rcases List.mem_map.mp hx with ⟨c, hc, rfl⟩
      exact hf c (List.mem_cons_of_mem a hc)
    simp only [List.map_cons, List.prod_cons, List.sum_cons]
    rw [Real.logb_mul (ne_of_gt (hf a (List.mem_cons_self a t))) (ne_of_gt hpos),
      ih fun c hc => hf c (List.mem_cons_of_mem a hc)]

/-- Clearing the two positive denominators in `N / a ≤ L - S / b`. -/
theorem div_sub_div_iff_aux (a b S L N : ℝ) (ha : 0 < a) (hb : 0 < b) :
    N * b + a * S ≤ a * b * L ↔ N / a ≤ L - S / b := by
  have hexp : (L - S / b) * a * b = a * b * L - a * S := by
    field_simp
    ring
  constructor
  · intro h
    rw [div_le_iff₀ ha, ← mul_le_mul_right hb, hexp]
    linarith
  · intro h
    rw [div_le_iff₀ ha, ← mul_le_mul_right hb, hexp] at h
    linarith

/-- Soundness of the exact-integer entropy test: for a non-empty password and
a positive denominator, `entropyAtLeast pw num den` is true exactly when the
real Shannon entropy of the password's character distribution,
`-sum over distinct c of (count c / n) * log2 (count c / n)`, is at least
`num / den` bits per character — the comparison the source makes with the
float thresholds 4.0, 7/2 and 3.0. -/
theorem entropyAtLeast_iff_shannon (pw : List Char) (hpw : pw ≠ [])
    (num den : Nat) (hden : 0 < den) :
    entropyAtLeast pw num den = true ↔
      (num : ℝ) / (den : ℝ) ≤
        -((pw.dedup.map fun c =>
            ((pw.count c : ℝ) / (pw.length : ℝ))
              * Real.logb 2 ((pw.count c : ℝ) / (pw.length : ℝ))).sum) := by
  have hn : 0 < pw.length := List.length_pos.mpr hpw
  have hnR : (0 : ℝ) < (pw.length : ℝ) := by exact_mod_cast hn
  have hnR0 : (pw.length : ℝ) ≠ 0 := ne_of_gt hnR
  have hdenR : (0 : ℝ) < (den : ℝ) := by exact_mod_cast hden
  have hkpos : ∀ c ∈ pw.dedup, 0 < pw.count c := fun c hc =>
    List.count_pos_iff.mpr (List.mem_dedup.mp hc)
  have hkR : ∀ c ∈ pw.dedup, (0 : ℝ) < (pw.count c : ℝ) := fun c hc => by
    exact_mod_cast hkpos c hc
  set n : ℝ := (pw.length : ℝ) with hndef
  set S : ℝ := (pw.dedup.map fun c => (pw.count c : ℝ) * Real.logb 2 (pw.count c)).sum
    with hSdef
  set L : ℝ := Real.logb 2 n with hLdef
  have hsumkR : (pw.dedup.map fun c => (pw.count c : ℝ)).sum = n := by
    have := congrArg (Nat.cast (R := ℝ)) (List.sum_map_count_dedup_eq_length pw)
    rw [Nat.cast_list_sum, List.map_map] at this
    exact this
  have hH : -((pw.dedup.map fun c =>
        ((pw.count c : ℝ) / n) * Real.logb 2 ((pw.count c : ℝ) / n)).sum)
      = L - S / n := by
    have hterm : ∀ c ∈ pw.dedup,
        ((pw.count c : ℝ) / n) * Real.logb 2 ((pw.count c : ℝ) / n)
          = ((pw.count c : ℝ) * Real.logb 2 (pw.count c)) / n
            - ((pw.count c : ℝ) * L) / n := by
      intro c hc
      rw [Real.logb_div (ne_of_gt (hkR c hc)) hnR0]
      field_simp
      ring
    rw [List.map_congr_left hterm, list_sum_map_sub]
    have h1 : (pw.dedup.map fun c =>
        ((pw.count c : ℝ) * Real.logb 2 (pw.count c)) / n).sum = S / n := by
      simp only [div_eq_mul_inv]
      rw [List.sum_map_mul_right]
    have h2 : (pw.dedup.map fun c => ((pw.count c : ℝ) * L) / n).sum = L := by
      have hcongr : (pw.dedup.map fun c => ((pw.count c : ℝ) * L) / n)
          = pw.dedup.map fun c => (pw.count c : ℝ) * (L / n) := by
        refine List.map_congr_left fun c _ => ?_
        ring
      rw [hcongr, List.sum_map_mul_right, hsumkR]
      field_simp
    rw [h1, h2]
    ring
  rw [hH]
  rw [entropyAtLeast, if_neg (by simp [hpw])]
  rw [decide_eq_true_eq]
  rw [show (2 ^ (num * pw.length) *
        ((pw.dedup.map fun c => pw.count c ^ (den * pw.count c)).prod)
        ≤ pw.length ^ (den * pw.length))
      ↔ ((2 : ℝ) ^ (num * pw.length) *
        ((pw.dedup.map fun c => (pw.count c : ℝ) ^ (den * pw.count c)).prod)
        ≤ n ^ (den * pw.length)) from ?_]
  rotate_left
  · rw [← Nat.cast_le (α := ℝ)]
    push_cast [Nat.cast_list_prod, List.map_map]
    have hfc : (Nat.cast (R := ℝ) ∘ fun c => List.count c pw ^ (den * List.count c pw))
        = fun c => ((List.count c pw : ℝ)) ^ (den * List.count c pw) := by
      funext c
      simp only [Function.comp_apply]
      push_cast
      rfl
    rw [hfc]
  have hQRpos : 0 < (pw.dedup.map fun c => (pw.count c : ℝ) ^ (den * pw.count c)).prod := by
    refine List.prod_pos ?_
    intro x hx
    rcases List.mem_map.mp hx with ⟨c, hc, rfl⟩
    exact pow_pos (hkR c hc) _
  have h2pow : (0 : ℝ) < 2 ^ (num * pw.length) := pow_pos two_pos _
  have hrhspos : (0 : ℝ) < n ^ (den * pw.length) := pow_pos hnR _
  rw [← Real.logb_le_logb (b := 2) one_lt_two (mul_pos h2pow hQRpos) hrhspos]
  rw [Real.logb_mul (ne_of_gt h2pow) (ne_of_gt hQRpos), Real.logb_pow,
    Real.logb_self_eq_one one_lt_two, mul_one,
    list_logb_prod _ _ (fun c hc => pow_pos (hkR c hc) _), Real.logb_pow]
  have hlog2 : (pw.dedup.map fun c =>
      Real.logb 2 ((pw.count c : ℝ) ^ (den * pw.count c))).sum = (den : ℝ) * S := by
    have hcongr : (pw.dedup.map fun c =>
        Real.logb 2 ((pw.count c : ℝ) ^ (den * pw.count c)))
        = pw.dedup.map fun c =>
            (den : ℝ) * ((pw.count c : ℝ) * Real.logb 2 (pw.count c)) := by
      refine List.map_congr_left fun c _ => ?_
      rw [Real.logb_pow]
      push_cast
      ring
    rw [hcongr, List.sum_map_mul_left]
  rw [hlog2]
  push_cast
  exact div_sub_div_iff_aux (den : ℝ) n S L (num : ℝ) hdenR hnR

/-- The fixed common-word list of `_check_dictionary_words`, in source order. -/
def common_words : List (List Char) :=
  ["password", "motdepasse", "admin", "user", "login", "welcome",
   "bonjour", "salut", "hello", "world", "test", "demo", "azerty",
   "qwerty", "secret", "passe", "code", "clef", "key", "open",
   "ouvrir", "fermer", "close", "start", "stop", "begin", "end",
   "premier", "dernier", "first", "last", "nouveau", "new", "old",
   "ancien", "facile", "easy", "simple", "basic", "master", "maitre"].map String.data

/-- `_check_dictionary_words`: the words of length at least 4 occurring in the
lowercased password. -/
def check_dictionary_words (pw : List Char) : List (List Char) :=
  let lower := pw.map toLowerAscii
  common_words.filter fun w => decide (w.length ≥ 4) && containsSub w lower

/-- Tail of `_check_repeated_chars`: walks the password maintaining the current
run length and the maximum run length. -/
def repeatedCharsGo (prev : Char) (current maxRepeat : Nat) : List Char → Nat
  | [] => maxRepeat
  | c :: rest =>
    if c = prev then repeatedCharsGo c (current + 1) (max maxRepeat (current + 1)) rest
    else repeatedCharsGo c 1 maxRepeat rest

/-- `_check_repeated_chars`: length of the longest run of identical consecutive
characters (0 for the empty password). -/
def check_repeated_chars : List Char → Nat
  | [] => 0
  | a :: rest => repeatedCharsGo a 1 1 rest

/-- `_check_sequential_chars`: some window of three consecutive characters with
strictly ascending or strictly descending consecutive code points. -/
def check_sequential_chars : List Char → Bool
  | a :: b :: c :: rest =>
    (b.toNat = a.toNat + 1 && c.toNat = a.toNat + 2)
    || (b.toNat + 1 = a.toNat && c.toNat + 2 = a.toNat)
    || check_sequential_chars (b :: c :: rest)
  | _ => false

/-- The fixed keyboard rows of `_check_keyboard_patterns`. -/
def keyboard_rows : List (List Char) :=
  ["qwertyuiop", "asdfghjkl", "zxcvbnm",
   "azertyuiop", "qsdfghjklm", "wxcvbn"].map String.data

/-- All windows `row[i:i+3]` of a row. -/
def threeGrams : List Char → List (List Char)
  | a :: b :: c :: rest => [a, b, c] :: threeGrams (b :: c :: rest)
  | _ => []

/-- `_check_keyboard_patterns`: some 3-character window of a keyboard row, or
its reverse, occurs in the lowercased password. -/
def check_keyboard_patterns (pw : List Char) : Bool :=
  let lower := pw.map toLowerAscii
  keyboard_rows.any fun row =>
    (threeGrams row).any fun pat =>
      containsSub pat lower || containsSub pat.reverse lower

/-- `character_types` of the analyzer: how many of the four character classes
are present. -/
def numCharacterTypes (pw : List Char) : Nat :=
  (if pw.any isLowerAlpha then 1 else 0) + (if pw.any isUpperAlpha then 1 else 0)
  + (if pw.any isDigitChar then 1 else 0) + (if pw.any isSymbolChar then 1 else 0)

/-- The fields of the analyzer's report used by the claims: the clamped final
score, the level label (the source's French strings), and the `details`
entries `base_score` and `penalties`.  The remaining report fields
(recommendations, colors, crack-time estimates, the raw analysis dict) are
not referenced by any claim. -/
structure StrengthReport where
  score : Int
  level : String
  base_score : Int
  penalties : Int
deriving DecidableEq

/-- The `# Niveau de sécurité` cascade of the effective
`_analyze_password_strength`: maps the clamped final score to the level label
(the source's French strings: Excellent, Très fort = VeryStrong,
Fort = Strong, Moyen = Medium, Faible = Weak, Très faible = VeryWeak,
Critique = Critical). -/
def level_label (final_score : Int) : String :=
  if final_score ≥ 90 then "Excellent"
  else if final_score ≥ 80 then "Très fort"
  else if final_score ≥ 70 then "Fort"
  else if final_score ≥ 60 then "Moyen"
  else if final_score ≥ 40 then "Faible"
  else if final_score ≥ 20 then "Très faible"
  else "Critique"

/-- The effective `_analyze_password_strength` (the second definition in
`CredentialViewSet`, lines 540-714): accumulates the base score, the
penalties, clamps, and maps the final score to a level label. -/
def analyze_password_strength (password : String) : StrengthReport :=
  if password = "" then ⟨0, "Aucun", 0, 0⟩
  else
    let pw := password.data
    let score : Int := 0
    let score := if pw.length ≥ 8 then score + 15 else score
    let score := if pw.length ≥ 12 then score + 10 else score
    let score := if pw.length ≥ 16 then score + 10 else score
    let score := if pw.any isLowerAlpha then score + 5 else score
    let score := if pw.any isUpperAlpha then score + 5 else score
    let score := if pw.any isDigitChar then score + 10 else score
    let score := if pw.any isSymbolChar then score + 15 else score
    let score := if numCharacterTypes pw ≥ 3 then score + 10 else score
    let score := if numCharacterTypes pw = 4 then score + 5 else score
    let score :=
      if entropyAtLeast pw 4 1 then score + 15
      else if entropyAtLeast pw 7 2 then score + 10
      else if entropyAtLeast pw 3 1 then score + 5
      else score
    let score :=
      if uniquenessAtLeast pw 4 5 then score + 10
      else if uniquenessAtLeast pw 3 5 then score + 5
      else score
    let penalties : Int := 0
    let penalties := if check_common_patterns pw then penalties + 25 else penalties
    let penalties := if check_dictionary_words pw = [] then penalties else penalties + 15
    let penalties := if check_repeated_chars pw > 2 then penalties + 10 else penalties
    let penalties := if check_sequential_chars pw then penalties + 15 else penalties
    let penalties := if check_keyboard_patterns pw then penalties + 20 else penalties
    let final_score := max 0 (min 100 (score - penalties))
    ⟨final_score, level_label final_score, score, penalties⟩

/- ## C4/C5: the scoring formula and the level thresholds -/

/-- Rewrites an `if`-guarded accumulation step into an added contribution. -/
theorem ite_add_shift (c : Prop) [Decidable c] (s k : Int) :
    (if c then s + k else s) = s + (if c then k else 0) := by
  split <;> simp

/-- Variant of `ite_add_shift` with the addition in the else branch. -/
theorem ite_add_shift_inv (c : Prop) [Decidable c] (s k : Int) :
    (if c then s else s + k) = s + (if c then 0 else k) := by
  split <;> simp

/-- Factors a shared summand out of both branches of an `if`. -/
theorem ite_add_add (c : Prop) [Decidable c] (s a b : Int) :
    (if c then s + a else s + b) = s + (if c then a else b) := by
  split <;> rfl

/-- The base score as the claim states it: length points (+15 if len ≥ 8, +10
more if ≥ 12, +10 more if ≥ 16), class points (+5 lowercase, +5 uppercase,
+10 digit, +15 symbol), diversity bonus (+10 if at least 3 classes, +5 more if
all 4), entropy points (+15 if ≥ 4.0 bits/char, else +10 if ≥ 3.5, else +5 if
≥ 3.0), and uniqueness points (+10 if the distinct-character ratio ≥ 0.8, else
+5 if ≥ 0.6). -/
def analyzer_base_spec (pw : List Char) : Int :=
  (if pw.length ≥ 8 then 15 else 0) + (if pw.length ≥ 12 then 10 else 0)
  + (if pw.length ≥ 16 then 10 else 0)
  + (if pw.any isLowerAlpha then 5 else 0) + (if pw.any isUpperAlpha then 5 else 0)
  + (if pw.any isDigitChar then 10 else 0) + (if pw.any isSymbolChar then 15 else 0)
  + (if numCharacterTypes pw ≥ 3 then 10 else 0)
  + (if numCharacterTypes pw = 4 then 5 else 0)
  + (if entropyAtLeast pw 4 1 then 15
     else if entropyAtLeast pw 7 2 then 10
     else if entropyAtLeast pw 3 1 then 5 else 0)
  + (if uniquenessAtLeast pw 4 5 then 10
     else if uniquenessAtLeast pw 3 5 then 5 else 0)

/-- The penalties as the claim states them: 25 if a common-pattern regex
matches, 15 if a dictionary word of length ≥ 4 occurs, 10 if the longest run
of one character exceeds 2, 15 if a 3-character ascending or descending
ordinal sequence occurs, 20 if a 3-character keyboard-row substring (or its
reverse) occurs. -/
def analyzer_penalties_spec (pw : List Char) : Int :=
  (if check_common_patterns pw then 25 else 0)
  + (if check_dictionary_words pw ≠ [] then 15 else 0)
  + (if check_repeated_chars pw > 2 then 10 else 0)
  + (if check_sequential_chars pw then 15 else 0)
  + (if check_keyboard_patterns pw then 20 else 0)

/-- C4: for every non-empty password, the analyzer's final score equals
`max 0 (min 100 (base - penalties))` with `base` and `penalties` the sums
stated by the claim (`analyzer_base_spec` and `analyzer_penalties_spec`), and
the report's `base_score` and `penalties` detail fields are exactly those
sums. -/
theorem analyze_score_clamped_formula (password : String) (h : password ≠ "") :
    (analyze_password_strength password).score =
      max 0 (min 100 (analyzer_base_spec password.data - analyzer_penalties_spec password.data))
    ∧ (analyze_password_strength password).base_score = analyzer_base_spec password.data
    ∧ (analyze_password_strength password).penalties = analyzer_penalties_spec password.data := by
  refine ⟨?_, ?_, ?_⟩ <;>
    simp only [analyze_password_strength, if_neg h, analyzer_base_spec,
      analyzer_penalties_spec, ite_add_shift, ite_add_shift_inv, ite_add_add,
      zero_add, ite_not]

/-- Witness for `analyze_score_clamped_formula` at the concrete password
`Aa1!xyz`. -/
theorem analyze_score_clamped_formula_witness :
    (analyze_password_strength "Aa1!xyz").score =
      max 0 (min 100 (analyzer_base_spec "Aa1!xyz".data
        - analyzer_penalties_spec "Aa1!xyz".data)) :=
  (analyze_score_clamped_formula "Aa1!xyz" (by decide)).1

/-- The interval reading of the source's level cascade. -/
theorem level_label_intervals (s : Int) :
    (level_label s = "Excellent" ↔ 90 ≤ s)
    ∧ (level_label s = "Très fort" ↔ 80 ≤ s ∧ s < 90)
    ∧ (level_label s = "Fort" ↔ 70 ≤ s ∧ s < 80)
    ∧ (level_label s = "Moyen" ↔ 60 ≤ s ∧ s < 70)
    ∧ (level_label s = "Faible" ↔ 40 ≤ s ∧ s < 60)
    ∧ (level_label s = "Très faible" ↔ 20 ≤ s ∧ s < 40)
    ∧ (level_label s = "Critique" ↔ s < 20) := by
  unfold level_label
  split_ifs <;> simp_all <;> omega

/-- The score-to-level mapping asserted by the claim, using the source's label
strings for the claim's level names (Weak = Faible, Medium = Moyen,
Strong = Fort, VeryStrong = Très fort, Excellent = Excellent); the claim's
sub-20 bucket ("Critical/VeryWeak boundary") is rendered as Critique, which
is irrelevant to the counterexample below (score 45). -/
def claimed_level_label (s : Int) : String :=
  if s < 20 then "Critique"
  else if s < 40 then "Faible"
  else if s < 60 then "Moyen"
  else if s < 70 then "Fort"
  else if s < 80 then "Très fort"
  else if s < 90 then "Très fort"
  else "Excellent"

/-- C5 counterexample: the password `Aa1!xyz` has final score 45; the claim's
mapping sends every score in [40,60) to Medium (`Moyen`), but the code labels
45 as Weak (`Faible`); in the code [40,60) is Weak, [60,70) Medium, [70,80)
Strong, [20,40) VeryWeak — the claim's thresholds are shifted one bucket. -/
theorem analyze_level_claim_counterexample :
    (analyze_password_strength "Aa1!xyz").score = 45
    ∧ claimed_level_label 45 = "Moyen"
    ∧ (analyze_password_strength "Aa1!xyz").level = "Faible"
    ∧ (analyze_password_strength "Aa1!xyz").level ≠
        claimed_level_label (analyze_password_strength "Aa1!xyz").score := by
  refine ⟨by decide, by decide, by decide, by decide⟩

/-- C5 (amended): for every non-empty password the analyzer's level is
determined from the final score by the source's thresholds: Excellent iff
score ≥ 90, VeryStrong (`Très fort`) iff 80 ≤ score < 90, Strong (`Fort`) iff
70 ≤ score < 80, Medium (`Moyen`) iff 60 ≤ score < 70, Weak (`Faible`) iff
40 ≤ score < 60, VeryWeak (`Très faible`) iff 20 ≤ score < 40, and Critical
(`Critique`) iff score < 20. -/
theorem analyze_level_thresholds (password : String) (h : password ≠ "") :
    ((analyze_password_strength password).level = "Excellent"
      ↔ 90 ≤ (analyze_password_strength password).score)
    ∧ ((analyze_password_strength password).level = "Très fort"
      ↔ 80 ≤ (analyze_password_strength password).score
        ∧ (analyze_password_strength password).score < 90)
    ∧ ((analyze_password_strength password).level = "Fort"
      ↔ 70 ≤ (analyze_password_strength password).score
        ∧ (analyze_password_strength password).score < 80)
    ∧ ((analyze_password_strength password).level = "Moyen"
      ↔ 60 ≤ (analyze_password_strength password).score
        ∧ (analyze_password_strength password).score < 70)
    ∧ ((analyze_password_strength password).level = "Faible"
      ↔ 40 ≤ (analyze_password_strength password).score
        ∧ (analyze_password_strength password).score < 60)
    ∧ ((analyze_password_strength password).level = "Très faible"
      ↔ 20 ≤ (analyze_password_strength password).score
        ∧ (analyze_password_strength password).score < 40)
    ∧ ((analyze_password_strength password).level = "Critique"
      ↔ (analyze_password_strength password).score < 20) := by
  have hlev : (analyze_password_strength password).level =
      level_label (analyze_password_strength password).score := by
    simp only [analyze_password_strength, if_neg h]
  rw [hlev]
  exact level_label_intervals _

/-- Witness for `analyze_level_thresholds` at the concrete password
`Aa1!xyz`. -/
theorem analyze_level_thresholds_witness :
    (analyze_password_strength "Aa1!xyz").level = "Faible"
      ↔ 40 ≤ (analyze_password_strength "Aa1!xyz").score
        ∧ (analyze_password_strength "Aa1!xyz").score < 60 :=
  (analyze_level_thresholds "Aa1!xyz" (by decide)).2.2.2.2.1

/- ## Credential model and cipher: `credential/models.py`

The Fernet cipher of the `cryptography` package is external to the repository;
it is modelled as an abstract encode/decode pair `enc`/`dec` passed to every
operation, with its contract (decoding an encoded value succeeds, tokens are
non-empty byte strings) taken as hypotheses where needed.  `BinaryField`
content is modelled as `List Nat`; the empty list is the falsy "no ciphertext
stored" state. -/

/-- The fields of the `Credential` row used by the claims. -/
structure Credential where
  owner : Nat
  is_shared : Bool
  password_encrypted : List Nat
  password_strength : Int
  password_changed_at : Int
deriving DecidableEq

/-- `Credential.encrypt_password`: encrypts and stores the password, but only
when the password is truthy — `if password:` makes the call a no-op for the
empty string. -/
def Credential.encrypt_password (enc : String → List Nat) (password : String)
    (c : Credential) : Credential :=
  if password ≠ "" then { c with password_encrypted := enc password } else c

/-- `Credential.decrypt_password`: returns the decrypted password, the empty
string when no ciphertext is stored, and the empty string when decryption
raises (the `except` branch, modelled by `dec` returning `none`). -/
def Credential.decrypt_password (dec : List Nat → Option String)
    (c : Credential) : String :=
  if c.password_encrypted ≠ [] then
    match dec c.password_encrypted with
    | some s => s
    | none => ""
  else ""

/- ## Serializer-side strength and the credential write paths:
`credential/serializers.py` -/

/-- The serializer's own symbol class, the narrower regex
`[!@#$%^&*(),.?":{}|<>]` of `CredentialDetailSerializer._calculate_password_strength`. -/
def serializerSymbolChars : List Char :=
  ['!', '@', '#', '$', '%', '^', '&', '*', '(', ')', ',', '.', '?',
   Char.ofNat 34, ':', Char.ofNat 123, Char.ofNat 125, '|', '<', '>']

/-- `CredentialDetailSerializer._calculate_password_strength`: the simple
length/class score (+25 if len ≥ 8, +10 if ≥ 12, +15 if ≥ 16; +10 lowercase,
+10 uppercase, +10 digit, +20 special), capped at 100; 0 for the empty
password. -/
def calculate_password_strength (password : String) : Int :=
  if password = "" then 0
  else
    let pw := password.data
    let score : Int := 0
    let score := if pw.length ≥ 8 then score + 25 else score
    let score := if pw.length ≥ 12 then score + 10 else score
    let score := if pw.length ≥ 16 then score + 15 else score
    let score := if pw.any isLowerAlpha then score + 10 else score
    let score := if pw.any isUpperAlpha then score + 10 else score
    let score := if pw.any isDigitChar then score + 10 else score
    let score := if pw.any (fun c => serializerSymbolChars.contains c) then score + 20 else score
    min score 100

/-- `CredentialDetailSerializer.validate_password` as an acceptance predicate:
a truthy password is rejected (`ValidationError`) when its serializer strength
is below 30; the empty string skips the check. -/
def validate_password (value : String) : Bool :=
  if value ≠ "" then decide (calculate_password_strength value ≥ 30) else true

/-- The password-related part of `CredentialDetailSerializer.create`: when a
truthy password is supplied, encrypt it, store the serializer strength, and
set `password_changed_at` to now. -/
def serializer_create (enc : String → List Nat) (password : String) (now : Int)
    (base : Credential) : Credential :=
  if password ≠ "" then
    let c := Credential.encrypt_password enc password base
    { c with password_strength := calculate_password_strength password,
             password_changed_at := now }
  else base

/-- The password-related part of `CredentialDetailSerializer.update`: when the
request carries a `password` field whose value differs from the currently
decrypted password, re-encrypt (a no-op for the empty string), store the
serializer strength of the new value, and refresh `password_changed_at`. -/
def serializer_update_password (enc : String → List Nat)
    (dec : List Nat → Option String) (c : Credential) (password : Option String)
    (now : Int) : Credential :=
  match password with
  | none => c
  | some p =>
    let old_password := Credential.decrypt_password dec c
    if p ≠ old_password then
      let c1 := Credential.encrypt_password enc p c
      { c1 with password_strength := calculate_password_strength p,
                password_changed_at := now }
    else c

/- ## Reveal endpoint: `credential/views.py`, `CredentialViewSet.reveal_password` -/

/-- Outcome of the `reveal_password` action: 200 with the plaintext, 403
(`PermissionDenied`), or 404 (`NotFound`). -/
inductive RevealOutcome where
  | revealed (password : String)
  | permission_denied
  | not_found
deriving DecidableEq

/-- `CredentialViewSet.reveal_password`: denies unless the requester is the
owner or the credential has `is_shared=True`; then 404 when no password
decrypts; otherwise returns the plaintext.  The sharing tables are not
consulted anywhere in this code path. -/
def reveal_password (dec : List Nat → Option String) (c : Credential)
    (requester : Nat) : RevealOutcome :=
  if c.owner ≠ requester ∧ c.is_shared = false then .permission_denied
  else
    let password := Credential.decrypt_password dec c
    if password = "" then .not_found
    else .revealed password

/-- The authorization condition asserted by the claim (spec side): requester
is the owner, or the credential is shared and some grant row for the
requester is active, non-expired and of at least read level. -/
def spec_reveal_authorized (c : Credential) (requester : Nat)
    (grants : List SharedCredential) (now : Int) : Prop :=
  requester = c.owner
  ∨ (c.is_shared = true
      ∧ ∃ g ∈ grants, g.user = requester ∧ g.has_permission "read" now = true)

/- ## Concrete cipher instance used by witnesses and counterexamples -/

/-- A concrete cipher for witnesses: a marker byte followed by the character
code points (tokens are always non-empty, as Fernet tokens are). -/
def encNat (s : String) : List Nat := 0 :: s.data.map Char.toNat

/-- Decoder matching `encNat`. -/
def decNat (l : List Nat) : Option String :=
  match l with
  | 0 :: rest => some (String.mk (rest.map Char.ofNat))
  | _ => none

/-- `decNat` decodes every `encNat` token. -/
theorem decNat_encNat (s : String) : decNat (encNat s) = some s := by
  have h : (Char.ofNat ∘ Char.toNat) = id := funext fun c => Char.ofNat_toNat c
  simp [decNat, encNat, List.map_map, h]

/-- `encNat` tokens are non-empty. -/
theorem encNat_ne_nil (s : String) : encNat s ≠ [] := by
  simp [encNat]

/-- A fresh credential with no stored ciphertext. -/
def sample_credential : Credential := ⟨0, false, [], 0, 0⟩

/-- A shared credential owned by user 0 whose stored password is `pw`. -/
def shared_credential_ex : Credential := ⟨0, true, encNat "pw", 0, 0⟩

/-- A private credential owned by user 0 whose stored password is `old`. -/
def owned_credential_old : Credential := ⟨0, false, encNat "old", 0, 0⟩

/- ## C1: reveal and the sharing engine -/

/-- C1 counterexample: requester 1 is not the owner of `shared_credential_ex`
and holds no grant at all (the grant table is empty), yet `reveal_password`
returns the plaintext because the view only checks the `is_shared` flag and
never consults the sharing engine — contradicting the claim that a
non-owner is served only with an active, non-expired grant of at least read
level. -/
theorem reveal_password_claim_counterexample :
    reveal_password decNat shared_credential_ex 1 = RevealOutcome.revealed "pw"
    ∧ (1 : Nat) ≠ shared_credential_ex.owner
    ∧ ¬ spec_reveal_authorized shared_credential_ex 1 [] 0 := by
  refine ⟨by decide, by decide, ?_⟩
  simp [spec_reveal_authorized, shared_credential_ex]

/-- C1 (amended): `reveal_password` never consults the sharing grants: for
every cipher, credential and requester it returns PermissionDenied iff the
requester is not the owner and the credential is not flagged shared; NotFound
iff the requester is the owner or the credential is flagged shared but no
password decrypts; and the plaintext iff the requester is the owner or the
credential is flagged shared (regardless of any grant) and a non-empty
password decrypts. -/
theorem reveal_password_characterization (dec : List Nat → Option String)
    (c : Credential) (r : Nat) :
    (reveal_password dec c r = RevealOutcome.permission_denied
      ↔ r ≠ c.owner ∧ c.is_shared = false)
    ∧ (reveal_password dec c r = RevealOutcome.not_found
      ↔ (r = c.owner ∨ c.is_shared = true) ∧ Credential.decrypt_password dec c = "")
    ∧ (∀ p, reveal_password dec c r = RevealOutcome.revealed p
      ↔ (r = c.owner ∨ c.is_shared = true)
        ∧ Credential.decrypt_password dec c = p ∧ p ≠ "") := by
  have hcond : ¬(c.owner ≠ r ∧ c.is_shared = false) →
      r = c.owner ∨ c.is_shared = true := by
    intro h
    by_cases ho : c.owner = r
    · exact Or.inl ho.symm
    · cases hcs : c.is_shared
      · exact absurd ⟨ho, hcs⟩ h
      · exact Or.inr rfl
  have hcond' : (c.owner ≠ r ∧ c.is_shared = false) →
      ¬(r = c.owner ∨ c.is_shared = true) := by
    rintro ⟨ho, hcs⟩ (h | h)
    · exact ho h.symm
    · rw [h] at hcs
      exact absurd hcs (by decide)
  refine ⟨?_, ?_, fun p => ?_⟩ <;> simp only [reveal_password] <;>
    split_ifs with h1 h2
  · exact iff_of_true rfl ⟨Ne.symm h1.1, h1.2⟩
  · exact iff_of_false (by simp) fun hc => h1 ⟨Ne.symm hc.1, hc.2⟩
  · exact iff_of_false (by simp) fun hc => h1 ⟨Ne.symm hc.1, hc.2⟩
  · exact iff_of_false (by simp) fun hc => hcond' h1 hc.1
  · exact iff_of_true rfl ⟨hcond h1, h2⟩
  · exact iff_of_false (by simp) fun hc => h2 hc.2
  · exact iff_of_false (by simp) fun hc => hcond' h1 hc.1
  · exact iff_of_false (by simp) fun hc => hc.2.2 (hc.2.1.symm.trans h2)
  · constructor
    · intro h
      injection h with h'
      exact ⟨hcond h1, h', fun hpnil => h2 (h'.trans hpnil)⟩
    · rintro ⟨_, hdp, _⟩
      rw [hdp]

/- ## C9: cipher round-trip on the password field -/

/-- C9 counterexample: encrypting the empty string is a no-op (`if password:`),
so on a credential that already stores the password `old`, the
encrypt-then-decrypt round trip of p = "" yields `old`, not p. -/
theorem encrypt_decrypt_claim_counterexample :
    Credential.decrypt_password decNat
        (Credential.encrypt_password encNat "" owned_credential_old) = "old"
    ∧ ("old" : String) ≠ "" := by
  refine ⟨by decide, by decide⟩

/-- C9 (amended): for every non-empty password p and any credential state,
decrypting after encrypting yields p back (given the cipher contract that
decoding an encoded token succeeds and tokens are non-empty); for the empty
string the encrypt call leaves the credential, hence the stored ciphertext,
unchanged. -/
theorem encrypt_decrypt_roundtrip (enc : String → List Nat)
    (dec : List Nat → Option String) (c : Credential) (p : String)
    (hdec : ∀ s, dec (enc s) = some s) (hnz : ∀ s, enc s ≠ []) :
    (p ≠ "" → Credential.decrypt_password dec (Credential.encrypt_password enc p c) = p)
    ∧ (p = "" → Credential.encrypt_password enc p c = c) := by
  constructor
  · intro hp
    simp [Credential.encrypt_password, Credential.decrypt_password, hp, hnz p, hdec p]
  · intro hp
    simp [Credential.encrypt_password, hp]

/-- Witness for `encrypt_decrypt_roundtrip` with the concrete cipher at
password `ab`. -/
theorem encrypt_decrypt_roundtrip_witness :
    Credential.decrypt_password decNat
      (Credential.encrypt_password encNat "ab" sample_credential) = "ab" :=
  (encrypt_decrypt_roundtrip encNat decNat sample_credential "ab"
    decNat_encNat encNat_ne_nil).1 (by decide)

/- ## C10: updating with an empty password -/

/-- C10: on a credential whose stored password is non-empty, an update that
supplies the password field as the empty string passes validation, leaves the
stored ciphertext unchanged (so a later reveal still decrypts the old
password), yet resets `password_strength` to the empty-string score (which is
0) and refreshes `password_changed_at` to the update time. -/
theorem update_empty_password_frame (enc : String → List Nat)
    (dec : List Nat → Option String) (c : Credential) (now : Int)
    (h : Credential.decrypt_password dec c ≠ "") :
    validate_password "" = true
    ∧ (serializer_update_password enc dec c (some "") now).password_encrypted
        = c.password_encrypted
    ∧ Credential.decrypt_password dec (serializer_update_password enc dec c (some "") now)
        = Credential.decrypt_password dec c
    ∧ (serializer_update_password enc dec c (some "") now).password_strength
        = calculate_password_strength ""
    ∧ calculate_password_strength "" = 0
    ∧ (serializer_update_password enc dec c (some "") now).password_changed_at = now := by
  have hne : ¬("" = Credential.decrypt_password dec c) := fun heq => h heq.symm
  have hdep : ∀ c' : Credential, c'.password_encrypted = c.password_encrypted →
      Credential.decrypt_password dec c' = Credential.decrypt_password dec c := by
    intro c' hcc
    simp [Credential.decrypt_password, hcc]
  have h2' : (serializer_update_password enc dec c (some "") now).password_encrypted
      = c.password_encrypted := by
    simp [serializer_update_password, hne, Credential.encrypt_password]
  refine ⟨by decide, h2', hdep _ h2', ?_, by decide, ?_⟩ <;>
    simp [serializer_update_password, hne, Credential.encrypt_password]

/-- Witness for `update_empty_password_frame` on the concrete credential
storing `old`. -/
theorem update_empty_password_frame_witness :
    (serializer_update_password encNat decNat owned_credential_old (some "") 5).password_encrypted
      = owned_credential_old.password_encrypted :=
  (update_empty_password_frame encNat decNat owned_credential_old 5 (by decide)).2.1

/- ## C3: which strength score is persisted -/

/-- C3 counterexample: the password `abcdefgh` passes the serializer's
validation (its serializer score is 35 ≥ 30), the create path persists
`password_strength = 35`, but the analyze endpoint's scorer reports 0 for the
same password (base 35, penalties 60, clamped at 0) — the stored value is
not the analyzer's score. -/
theorem stored_strength_claim_counterexample :
    validate_password "abcdefgh" = true
    ∧ (serializer_create encNat "abcdefgh" 0 sample_credential).password_strength = 35
    ∧ (analyze_password_strength "abcdefgh").score = 0
    ∧ (serializer_create encNat "abcdefgh" 0 sample_credential).password_strength
        ≠ (analyze_password_strength "abcdefgh").score := by
  refine ⟨by decide, by decide, by decide, by decide⟩

/-- C3 (amended): every password written through credential create, or
through an update that actually changes the password, is persisted with
`password_strength` equal to the serializer's own
`_calculate_password_strength` score — not the analyze endpoint's score,
from which it differs (see the counterexample). -/
theorem stored_strength_eq_serializer_score (enc : String → List Nat)
    (dec : List Nat → Option String) (base c : Credential) (p : String)
    (now : Int) (hp : p ≠ "") (hchange : p ≠ Credential.decrypt_password dec c) :
    (serializer_create enc p now base).password_strength
        = calculate_password_strength p
    ∧ (serializer_update_password enc dec c (some p) now).password_strength
        = calculate_password_strength p := by
  constructor
  · simp [serializer_create, hp]
  · simp [serializer_update_password, hchange]

/-- Witness for `stored_strength_eq_serializer_score` at the concrete password
`Abcdef12` on a fresh credential. -/
theorem stored_strength_eq_serializer_score_witness :
    (serializer_create encNat "Abcdef12" 0 sample_credential).password_strength
      = calculate_password_strength "Abcdef12" :=
  (stored_strength_eq_serializer_score encNat decNat sample_credential
    sample_credential "Abcdef12" 0 (by decide) (by decide)).1

/- ## Password generator: `credential/views.py`,
`generate_password` / `_generate_secure_password`

The draws of `secrets.choice` and the `secrets.SystemRandom().shuffle` are
nondeterministic; they are modelled relationally: the four per-class draws are
parameters constrained to lie in their pools, the filler is any list of draws
from the union alphabet of the requested length remainder, and the shuffled
output is any permutation of required-plus-filler. -/

/-- `string.ascii_lowercase`. -/
def ascii_lowercase : List Char := "abcdefghijklmnopqrstuvwxyz".data

/-- `string.ascii_uppercase`. -/
def ascii_uppercase : List Char := "ABCDEFGHIJKLMNOPQRSTUVWXYZ".data

/-- `string.digits`. -/
def ascii_digits : List Char := "0123456789".data

/-- The generator's symbol alphabet `!@#$%^&*()_+-=[]{}|;:,.<>?`. -/
def generatorSymbols : List Char := "!@#$%^&*()_+-=[]\x7b\x7d|;:,.<>?".data

/-- The ambiguous characters stripped when `exclude_ambiguous` is set. -/
def ambiguousChars : List Char := ['l', 'o', 'I', 'O', '0', '1']

/-- The lowercase pool, with `l` and `o` removed (two successive `replace`
calls) when ambiguous characters are excluded. -/
def lowerPool (exclude_ambiguous : Bool) : List Char :=
  if exclude_ambiguous then (ascii_lowercase.filter (· != 'l')).filter (· != 'o')
  else ascii_lowercase

/-- The uppercase pool, with `I` and `O` removed when ambiguous characters are
excluded. -/
def upperPool (exclude_ambiguous : Bool) : List Char :=
  if exclude_ambiguous then (ascii_uppercase.filter (· != 'I')).filter (· != 'O')
  else ascii_uppercase

/-- The digit pool, with `0` and `1` removed when ambiguous characters are
excluded. -/
def digitPool (exclude_ambiguous : Bool) : List Char :=
  if exclude_ambiguous then (ascii_digits.filter (· != '0')).filter (· != '1')
  else ascii_digits

/-- The union alphabet `characters`, concatenated in source order (lowercase,
uppercase, numbers, symbols as included). -/
def charactersPool (incL incU incN incS exclude_ambiguous : Bool) : List Char :=
  (if incL then lowerPool exclude_ambiguous else [])
  ++ (if incU then upperPool exclude_ambiguous else [])
  ++ (if incN then digitPool exclude_ambiguous else [])
  ++ (if incS then generatorSymbols else [])

/-- The `required_chars` list: one draw per included class, appended in source
order. -/
def requiredChars (incL incU incN incS : Bool) (cl cu cd cs : Char) : List Char :=
  (if incL then [cl] else []) ++ (if incU then [cu] else [])
  ++ (if incN then [cd] else []) ++ (if incS then [cs] else [])

/-- The endpoint's failure condition: `generate_password` raises
`ValidationError` when the requested length is outside [4,128], and
`_generate_secure_password` raises `ValidationError` when the union alphabet
is empty (no class selected). -/
def generate_password_request_invalid (length : Int)
    (incL incU incN incS exclude_ambiguous : Bool) : Bool :=
  decide (length < 4) || decide (length > 128)
  || (charactersPool incL incU incN incS exclude_ambiguous).isEmpty

/-- Membership in an `if`-guarded pool implies the guard and pool
membership. -/
theorem mem_ite_nil {α : Type} {b : Bool} {l : List α} {ch : α}
    (h : ch ∈ if b = true then l else []) : b = true ∧ ch ∈ l := by
  cases b
  · simp at h
  · exact ⟨rfl, by simpa using h⟩

/-- The ambiguity-stripped lowercase pool avoids all ambiguous characters. -/
theorem lowerPool_ambiguous : ∀ ch ∈ lowerPool true, ch ∉ ambiguousChars := by decide

/-- The ambiguity-stripped uppercase pool avoids all ambiguous characters. -/
theorem upperPool_ambiguous : ∀ ch ∈ upperPool true, ch ∉ ambiguousChars := by decide

/-- The ambiguity-stripped digit pool avoids all ambiguous characters. -/
theorem digitPool_ambiguous : ∀ ch ∈ digitPool true, ch ∉ ambiguousChars := by decide

/-- The symbol alphabet contains no ambiguous characters. -/
theorem generatorSymbols_ambiguous : ∀ ch ∈ generatorSymbols, ch ∉ ambiguousChars := by
  decide

/-- With ambiguous characters excluded, the union alphabet avoids them all. -/
theorem charactersPool_ambiguous (incL incU incN incS : Bool) :
    ∀ ch ∈ charactersPool incL incU incN incS true, ch ∉ ambiguousChars := by
  intro ch hch
  simp only [charactersPool, List.mem_append] at hch
  rcases hch with ((h | h) | h) | h
  · exact lowerPool_ambiguous ch (mem_ite_nil h).2
  · exact upperPool_ambiguous ch (mem_ite_nil h).2
  · exact digitPool_ambiguous ch (mem_ite_nil h).2
  · exact generatorSymbols_ambiguous ch (mem_ite_nil h).2

/-- At most one required draw per class. -/
theorem requiredChars_length_le (incL incU incN incS : Bool) (cl cu cd cs : Char) :
    (requiredChars incL incU incN incS cl cu cd cs).length ≤ 4 := by
  cases incL <;> cases incU <;> cases incN <;> cases incS <;> simp [requiredChars]

/-- C6: for every requested length in [4,128] and non-empty class subset, any
output of `_generate_secure_password` — a cryptographic shuffle of one draw
from each selected class pool plus `length - |required|` draws from the union
alphabet — has exactly the requested length, contains at least one character
of every requested class, and, when `exclude_ambiguous` is set, contains no
ambiguous character (`l`, `o`, `I`, `O`, `0`, `1`); and the request fails
with a validation error whenever the length is outside [4,128] or the
selected class set is empty. -/
theorem generate_password_policy_spec :
    (∀ (length : Nat) (incL incU incN incS excl : Bool) (cl cu cd cs : Char)
        (fill out : List Char),
      4 ≤ length → length ≤ 128 →
      (incL = true → cl ∈ lowerPool excl) →
      (incU = true → cu ∈ upperPool excl) →
      (incN = true → cd ∈ digitPool excl) →
      (incS = true → cs ∈ generatorSymbols) →
      fill.length = length - (requiredChars incL incU incN incS cl cu cd cs).length →
      (∀ ch ∈ fill, ch ∈ charactersPool incL incU incN incS excl) →
      out.Perm (requiredChars incL incU incN incS cl cu cd cs ++ fill) →
      (incL || incU || incN || incS) = true →
      (out.length = length
        ∧ (incL = true → ∃ ch ∈ out, ch ∈ lowerPool excl)
        ∧ (incU = true → ∃ ch ∈ out, ch ∈ upperPool excl)
        ∧ (incN = true → ∃ ch ∈ out, ch ∈ digitPool excl)
        ∧ (incS = true → ∃ ch ∈ out, ch ∈ generatorSymbols)
        ∧ (excl = true → ∀ ch ∈ out, ch ∉ ambiguousChars)))
    ∧ (∀ (length : Int) (incL incU incN incS excl : Bool),
        (length < 4 ∨ 128 < length
          ∨ (incL = false ∧ incU = false ∧ incN = false ∧ incS = false)) →
        generate_password_request_invalid length incL incU incN incS excl = true) := by
  constructor
  · intro length incL incU incN incS excl cl cu cd cs fill out
    intro h4 _h128 hL hU hN hS hfill hfillmem hperm _hclass
    have hreq : (requiredChars incL incU incN incS cl cu cd cs).length ≤ length :=
      le_trans (requiredChars_length_le incL incU incN incS cl cu cd cs) h4
    refine ⟨?_, ?_, ?_, ?_, ?_, ?_⟩
    · rw [hperm.length_eq, List.length_append, hfill]
      omega
    · intro hLt
      exact ⟨cl, hperm.mem_iff.mpr (List.mem_append_left _ (by simp [requiredChars, hLt])),
        hL hLt⟩
    · intro hUt
      exact ⟨cu, hperm.mem_iff.mpr (List.mem_append_left _ (by simp [requiredChars, hUt])),
        hU hUt⟩
    · intro hNt
      exact ⟨cd, hperm.mem_iff.mpr (List.mem_append_left _ (by simp [requiredChars, hNt])),
        hN hNt⟩
    · intro hSt
      exact ⟨cs, hperm.mem_iff.mpr (List.mem_append_left _ (by simp [requiredChars, hSt])),
        hS hSt⟩
    · intro hexcl ch hch
      subst hexcl
      rcases List.mem_append.mp (hperm.mem_iff.mp hch) with hr | hf
      · simp only [requiredChars, List.mem_append] at hr
        rcases hr with ((h | h) | h) | h
        · rcases mem_ite_nil h with ⟨hb, hm⟩
          rcases List.mem_singleton.mp hm with rfl
          exact lowerPool_ambiguous ch (hL hb)
        · rcases mem_ite_nil h with ⟨hb, hm⟩
          rcases List.mem_singleton.mp hm with rfl
          exact upperPool_ambiguous ch (hU hb)
        · rcases mem_ite_nil h with ⟨hb, hm⟩
          rcases List.mem_singleton.mp hm with rfl
          exact digitPool_ambiguous ch (hN hb)
        · rcases mem_ite_nil h with ⟨hb, hm⟩
          rcases List.mem_singleton.mp hm with rfl
          exact generatorSymbols_ambiguous ch (hS hb)
      · exact charactersPool_ambiguous incL incU incN incS ch (hfillmem ch hf)
  · intro length incL incU incN incS excl h
    rcases h with h | h | ⟨h1, h2, h3, h4⟩
    · simp [generate_password_request_invalid, h]
    · simp [generate_password_request_invalid, h]
    · subst h1; subst h2; subst h3; subst h4
      simp [generate_password_request_invalid, charactersPool]

/-- Witness for `generate_password_policy_spec`: a concrete output for
length 4, all classes, ambiguous excluded, and a concrete invalid request
(length 3). -/
theorem generate_password_policy_spec_witness :
    ((['!', '2', 'A', 'a'] : List Char).length = 4
      ∧ (true = true → ∃ ch ∈ (['!', '2', 'A', 'a'] : List Char), ch ∈ lowerPool true)
      ∧ (true = true → ∃ ch ∈ (['!', '2', 'A', 'a'] : List Char), ch ∈ upperPool true)
      ∧ (true = true → ∃ ch ∈ (['!', '2', 'A', 'a'] : List Char), ch ∈ digitPool true)
      ∧ (true = true → ∃ ch ∈ (['!', '2', 'A', 'a'] : List Char), ch ∈ generatorSymbols)
      ∧ (true = true → ∀ ch ∈ (['!', '2', 'A', 'a'] : List Char), ch ∉ ambiguousChars))
    ∧ generate_password_request_invalid 3 true true true true false = true :=
  ⟨generate_password_policy_spec.1 4 true true true true true 'a' 'A' '2' '!'
      [] ['!', '2', 'A', 'a'] (by decide) (by decide) (fun _ => by decide)
      (fun _ => by decide) (fun _ => by decide) (fun _ => by decide) (by decide)
      (by decide) (by decide) (by decide),
   generate_password_policy_spec.2 3 true true true true false (Or.inl (by decide))⟩

/- ## Password history: `credential/views.py`,
`CredentialViewSet._save_password_history`

Each password change pushes the SHA-256 hash of the previous password; the
history table for one credential is modelled as the list of stored hash
values in recency order (most recent first, i.e. decreasing `created_at`).
A push first checks `PasswordHistory.objects.filter(credential, hash).exists()`
(membership) and inserts only if absent, then deletes every entry beyond the
10 most recent (`order_by('-created_at')[10:]`). -/

/-- One call of `_save_password_history` with a truthy old password, acting on
the credential's history (most recent first). -/
def push_password_history (h : String) (s : List String) : List String :=
  (if h ∈ s then s else h :: s).take 10

/-- The history after a sequence of pushes on a fresh credential. -/
def run_password_history (pushes : List String) : List String :=
  pushes.foldl (fun s h => push_password_history h s) []

/-- The claim's notion of "the hashes of the most recently pushed passwords":
each pushed hash at its most recent push, most recent first, trimmed to the
10 most recent.  (`List.dedup` keeps the last occurrence of each element in
order, so `pushes.dedup.reverse` lists the hashes by decreasing recency of
their latest push.) -/
def most_recent_pushes (pushes : List String) : List String :=
  (pushes.dedup).reverse.take 10

/-- After any sequence of pushes the history has at most 10 entries and no
duplicate hash. -/
theorem run_password_history_le_nodup (pushes : List String) :
    (run_password_history pushes).length ≤ 10
    ∧ (run_password_history pushes).Nodup := by
  induction pushes using List.reverseRecOn with
  | nil => simp [run_password_history]
  | append_singleton qs q ih =>
    have hrun : run_password_history (qs ++ [q])
        = push_password_history q (run_password_history qs) := by
      simp [run_password_history, List.foldl_append]
    rw [hrun, push_password_history]
    constructor
    · exact List.length_take_le 10 _
    · split_ifs with hmem
      · exact (List.take_sublist 10 _).nodup ih.2
      · exact (List.take_sublist 10 _).nodup (List.nodup_cons.mpr ⟨hmem, ih.2⟩)

/-- Every stored hash was pushed. -/
theorem run_password_history_subset (pushes : List String) :
    run_password_history pushes ⊆ pushes := by
  induction pushes using List.reverseRecOn with
  | nil => simp [run_password_history]
  | append_singleton qs q ih =>
    have hrun : run_password_history (qs ++ [q])
        = push_password_history q (run_password_history qs) := by
      simp [run_password_history, List.foldl_append]
    rw [hrun, push_password_history]
    refine List.Subset.trans (List.take_subset 10 _) ?_
    split_ifs with hmem
    · exact fun a ha => List.mem_append_left _ (ih ha)
    · intro a ha
      rcases List.mem_cons.mp ha with rfl | ha
      · exact List.mem_append_right _ (List.mem_singleton_self a)
      · exact List.mem_append_left _ (ih ha)

/-- Prepending to an already-trimmed list and trimming equals trimming the
prepended untrimmed list. -/
theorem take_cons_take (q : String) (l : List String) (n : Nat) :
    (q :: l.take n).take n = (q :: l).take n := by
  cases n with
  | zero => simp
  | succ m =>
    simp [List.take_succ_cons, List.take_take, Nat.min_eq_left (Nat.le_succ m)]

/-- For pairwise-distinct pushes the history is exactly the 10 most recent
pushes, most recent first. -/
theorem run_password_history_distinct (pushes : List String)
    (hnd : pushes.Nodup) :
    run_password_history pushes = pushes.reverse.take 10 := by
  induction pushes using List.reverseRecOn with
  | nil => simp [run_password_history]
  | append_singleton qs q ih =>
    have hrun : run_password_history (qs ++ [q])
        = push_password_history q (run_password_history qs) := by
      simp [run_password_history, List.foldl_append]
    have hqs : qs.Nodup := hnd.of_append_left
    have hq : q ∉ qs := fun hmem =>
      (List.disjoint_of_nodup_append hnd) hmem (List.mem_singleton_self q)
    have hq' : q ∉ run_password_history qs := fun hmem =>
      hq (run_password_history_subset qs hmem)
    rw [hrun, push_password_history, if_neg hq', ih hqs]
    rw [List.reverse_append, List.reverse_singleton, List.singleton_append]
    exact take_cons_take q qs.reverse 10

/-- The push sequence of the reachable chain of password changes
p0 → p1 → p0 → p2 → p3 → … → p10 → p11 (each change pushes the hash of the
old password, and consecutive passwords differ): the hash `h0` is pushed a
second time, after the push of `h1`. -/
def duplicate_push_sequence : List String :=
  ["h0", "h1", "h0", "h2", "h3", "h4", "h5", "h6", "h7", "h8", "h9", "h10"]

/-- C7 counterexample: on `duplicate_push_sequence` the code retains
h10 … h2, h1 — the re-push of `h0` (more recent than the only push of `h1`)
is a dedup no-op that does not refresh its `created_at`, so the trim evicts
`h0` while keeping `h1`, and the retained entries are not the hashes of the
10 most recently pushed passwords. -/
theorem password_history_claim_counterexample :
    run_password_history duplicate_push_sequence
      = ["h10", "h9", "h8", "h7", "h6", "h5", "h4", "h3", "h2", "h1"]
    ∧ most_recent_pushes duplicate_push_sequence
      = ["h10", "h9", "h8", "h7", "h6", "h5", "h4", "h3", "h2", "h0"]
    ∧ run_password_history duplicate_push_sequence
        ≠ most_recent_pushes duplicate_push_sequence := by
  refine ⟨by decide, by decide, by decide⟩

/-- C7 (amended): starting from an empty history, after any sequence of pushes
the history holds at most 10 entries, no hash twice, and only pushed hashes;
when the pushed hashes are pairwise distinct the retained entries are exactly
the 10 most recently pushed hashes (most recent first) — in particular 11
distinct pushes leave exactly 10 entries.  For sequences with re-pushed
hashes the retained entries need not be the most recent pushes, since a
dedup no-op does not refresh recency (see the counterexample). -/
theorem password_history_retention (pushes : List String) :
    (run_password_history pushes).length ≤ 10
    ∧ (run_password_history pushes).Nodup
    ∧ run_password_history pushes ⊆ pushes
    ∧ (pushes.Nodup → run_password_history pushes = most_recent_pushes pushes)
    ∧ (pushes.Nodup → pushes.length = 11 →
        (run_password_history pushes).length = 10) := by
  refine ⟨(run_password_history_le_nodup pushes).1,
    (run_password_history_le_nodup pushes).2,
    run_password_history_subset pushes, ?_, ?_⟩
  · intro hnd
    rw [most_recent_pushes, List.dedup_eq_self.mpr hnd]
    exact run_password_history_distinct pushes hnd
  · intro hnd h11
    rw [run_password_history_distinct pushes hnd]
    simp [List.length_take, List.length_reverse, h11]

/-- Witness for `password_history_retention` at 11 concrete distinct hashes. -/
theorem password_history_retention_witness :
    (run_password_history
      ["h01", "h02", "h03", "h04", "h05", "h06", "h07", "h08", "h09", "h10", "h11"]).length
      = 10 :=
  (password_history_retention
      ["h01", "h02", "h03", "h04", "h05", "h06", "h07", "h08", "h09", "h10", "h11"]).2.2.2.2
    (by decide) (by decide)

end PassGuardians
